import Mathlib

/-!
# Otterball-NFL: shallow embedding and verification

This file embeds the reconciliation / lifecycle core of the Otterball-NFL
bot (files `otterball_nfl/models.py`, `otterball_nfl/main.py`,
`otterball_nfl/tasks.py`) as executable Lean definitions, and proves or
refutes the specified properties about them.

Conventions of the embedding:
* database tables are plain lists of row structures; `session.get` by
  primary key becomes a `List.find?` on the id, `select ... .first()`
  becomes `List.find?` with the `where` clauses as the predicate;
* SQL `NULL` is `Option.none`; timestamps are integers (seconds);
* Python `enum.IntEnum` values are carried by an explicit `val` map;
* external I/O (Discord fetch / poll end / message send) is replaced by
  an explicit oracle argument saying whether each call succeeds.
-/

namespace Otterball

/-- `Outcome` (models.py): IntEnum with NOT_FINISHED = -1, HOME = 0,
AWAY = 1, TIE = 2. -/
inductive Outcome where
  | NOT_FINISHED
  | HOME
  | AWAY
  | TIE
deriving DecidableEq, Repr

/-- The integer value of the `Outcome` IntEnum member. -/
def Outcome.val : Outcome → Int
  | .NOT_FINISHED => -1
  | .HOME => 0
  | .AWAY => 1
  | .TIE => 2

/-- `Outcome.from_result` (models.py lines 118-128): None maps to
NOT_FINISHED, 0 to TIE, negative to AWAY, positive to HOME. -/
def Outcome.fromResult : Option Int → Outcome
  | none => .NOT_FINISHED
  | some r => if r = 0 then .TIE else if r < 0 then .AWAY else .HOME

/-- A `gametype_scaling` row (models.py `GameTypeScaling`): primary key
(channel_id, gametype_id), integer factor. -/
structure ScalingRow where
  channel_id : Nat
  gametype_id : String
  factor : Int
deriving DecidableEq, Repr

/-- A `game` row (models.py `Game`), restricted to the columns the
verified code paths read or write. -/
structure GameRow where
  id : String
  home_team_id : String
  away_team_id : String
  home_score : Option Int
  away_score : Option Int
  result : Option Int
  outcome : Outcome
  gametype_id : String
  kickoff : Int
deriving DecidableEq, Repr

/-- A `bet` row (models.py `Bet`), without the surrogate integer id.
`choice` is stored as the integer `answer.id - 1` that the sync code
writes; it is compared against `Outcome.val` the way the IntEnum column
comparison does. -/
structure BetRow where
  user_id : Nat
  game_id : String
  channel_id : Nat
  choice : Int
deriving DecidableEq, Repr

/-- A `user` row (models.py `User`). -/
structure UserRow where
  id : Nat
  username : String
deriving DecidableEq, Repr

/-- `Bet.possible_points` (models.py lines 311-319): scalar subquery
selecting `GameTypeScaling.factor` joined with `Game` on
`GameTypeScaling.gametype_id == Game.gametype_id`, filtered by the
bet's `channel_id` and `game_id`.  A scalar subquery with no matching
row yields SQL NULL, i.e. `none`. -/
def possiblePoints (scalings : List ScalingRow) (games : List GameRow)
    (b : BetRow) : Option Int :=
  (games.find? (fun g => g.id = b.game_id)).bind fun g =>
    (scalings.find? (fun s =>
      s.channel_id = b.channel_id ∧ s.gametype_id = g.gametype_id)).map
      (fun s => s.factor)

/-- `Bet.earned_points` (models.py lines 337-341): `possible_points`
when the bet's choice equals the game's outcome, else `0`.  The
relationship access `self.game` is the lookup of the bet's game row. -/
def earnedPoints (scalings : List ScalingRow) (games : List GameRow)
    (b : BetRow) : Option Int :=
  match games.find? (fun g => g.id = b.game_id) with
  | none => none
  | some g =>
    if b.choice = g.outcome.val then possiblePoints scalings games b
    else some 0

/-- A `gametype` row (models.py `GameType`). -/
structure GameTypeRow where
  id : String
  name : String
deriving DecidableEq, Repr

/-- The five game types hard-coded in `MyClient.populate_game_types`
(main.py lines 583-604), in source order. -/
def defaultGameTypes : List GameTypeRow :=
  [⟨"REG", "Regular Season"⟩,
   ⟨"DIV", "Divisional Round"⟩,
   ⟨"WC", "Wild Card Round"⟩,
   ⟨"CON", "Conference Championship"⟩,
   ⟨"SB", "Super Bowl"⟩]

/-- The loop body of `MyClient.populate_game_types` (main.py lines
605-614): for each candidate game type, `session.get` by id; if a row
with that id already exists the function RETURNS (not continues),
otherwise the row is added and committed. -/
def populateGameTypesAux (store : List GameTypeRow) :
    List GameTypeRow → List GameTypeRow
  | [] => store
  | gt :: rest =>
    if store.any (fun r => r.id = gt.id) then store
    else populateGameTypesAux (store ++ [gt]) rest

/-- `MyClient.populate_game_types` (main.py lines 582-616) acting on the
`gametype` table. -/
def populateGameTypes (store : List GameTypeRow) : List GameTypeRow :=
  populateGameTypesAux store defaultGameTypes

/-- Modelled from the spec: the `ApiSource` provider enum ("a single
tagged provider enum (ApiSource) used as a map discriminator", spec §9).
Its definition is referenced by tasks.py but absent from the provided
sources; the member names are taken from the references in tasks.py. -/
inductive ApiSource where
  | NFL_DATA_PY
  | ESPN_V2
deriving DecidableEq, Repr

/-- Modelled from the spec: a `GameIdentifier` row, the External
Identity Map of spec §3 — "(source enum, external id) → Game id".
Referenced by tasks.py but absent from the provided models.py. -/
structure GameIdentRow where
  game_id : String
  source : ApiSource
  external_id : String
deriving DecidableEq, Repr

/-- Modelled from the spec: a `TeamIdentifier` row, "(source enum,
external id) → Team id" (spec §3).  Referenced by tasks.py but absent
from the provided models.py. -/
structure TeamIdentRow where
  team_id : String
  source : ApiSource
  external_id : String
deriving DecidableEq, Repr

/-- One event of the ESPN scoreboard response as read by
`update_espn_games` (tasks.py lines 186-201): external event id, event
name (checked for a "tbd" prefix), the two competitors (the first one's
homeAway flag decides whether they are swapped), and the parsed kickoff
timestamp. -/
structure EspnEvent where
  external_id : String
  name : String
  comp0_homeAway : String
  comp0_team : String
  comp1_team : String
  kickoff : Int
deriving DecidableEq, Repr

/-- The database state touched by `update_espn_games` and
`update_games`. -/
@[ext]
structure ReconState where
  games : List GameRow
  gameIdents : List GameIdentRow
  teamIdents : List TeamIdentRow
deriving DecidableEq, Repr

/-- A raw numeric cell of the provider schedule: pandas floats are
either the not-a-number sentinel or an integral value. -/
inductive RawNum where
  | nan
  | num (n : Int)
deriving DecidableEq, Repr

/-- The normalization `int(x) if not isnan(x) else None` applied to
every score/result cell in `update_games` (tasks.py lines 38-47 and
55-62). -/
def RawNum.toDb : RawNum → Option Int
  | .nan => none
  | .num n => some n

/-- One row of the provider's season schedule as read by `update_games`
(tasks.py lines 27-31 and 36-64). -/
structure SchedRow where
  game_id : String
  game_type : String
  home_team : String
  away_team : String
  home_score : RawNum
  away_score : RawNum
  result : RawNum
  kickoff_utc : Int
deriving DecidableEq, Repr

/-- The update branch of `update_games` (tasks.py lines 37-48): an
existing game keeps its id, teams and game type; scores, kickoff and
result are overwritten with the normalized ingested values and the
outcome is recomputed from the freshly ingested result. -/
def mergeGame (g : GameRow) (r : SchedRow) : GameRow :=
  { g with
    home_score := r.home_score.toDb
    away_score := r.away_score.toDb
    result := r.result.toDb
    outcome := Outcome.fromResult r.result.toDb
    kickoff := r.kickoff_utc }

/-- The insert branch of `update_games` (tasks.py lines 50-64). -/
def newGame (r : SchedRow) : GameRow :=
  ⟨r.game_id, r.home_team, r.away_team, r.home_score.toDb,
   r.away_score.toDb, r.result.toDb, Outcome.fromResult r.result.toDb,
   r.game_type, r.kickoff_utc⟩

/-- The per-row upsert of `update_games` on the `game` table:
`session.get(Game, game.game_id)` decides between the update and the
insert branch. -/
def upsertGame (games : List GameRow) (r : SchedRow) : List GameRow :=
  if games.any (fun g => g.id = r.game_id) then
    games.map (fun g => if g.id = r.game_id then mergeGame g r else g)
  else games ++ [newGame r]

/-- `update_games` restricted to the `game` table. -/
def updateGamesTable (games : List GameRow) (batch : List SchedRow) :
    List GameRow :=
  batch.foldl upsertGame games

/-- The GameIdentifier upsert of `update_games` (tasks.py lines 66-78):
a (NFL_DATA_PY, game_id) identifier is added unless one exists. -/
def upsertNflIdent (idents : List GameIdentRow) (r : SchedRow) :
    List GameIdentRow :=
  if idents.any (fun gi =>
      gi.source = ApiSource.NFL_DATA_PY ∧ gi.external_id = r.game_id)
    then idents
  else idents ++ [⟨r.game_id, ApiSource.NFL_DATA_PY, r.game_id⟩]

/-- One loop iteration of `update_games` (tasks.py lines 34-89) on the
database state. -/
def upsertSchedRow (st : ReconState) (r : SchedRow) : ReconState :=
  { st with
    games := upsertGame st.games r
    gameIdents := upsertNflIdent st.gameIdents r }

/-- `update_games` (tasks.py lines 26-90) over one season's schedule
batch. -/
def updateGames (st : ReconState) (batch : List SchedRow) : ReconState :=
  batch.foldl upsertSchedRow st

/-- One observed voter of one poll answer, as produced by iterating
`poll.answers` and `answer.voters()` in `sync_poll_bets` (main.py lines
85-87): the voter's id and name, and the Discord answer id whose value
minus one becomes the stored choice. -/
structure VoterObs where
  id : Nat
  name : String
  answer : Int
deriving DecidableEq, Repr

/-- The user and bet tables touched by `sync_poll_bets`. -/
structure BetsState where
  users : List UserRow
  bets : List BetRow
deriving DecidableEq, Repr

/-- `db_bet.choice = answer.id - 1` applied to the FIRST bet matching
(user_id, game_id, channel_id) — the `.first()` of main.py line 98. -/
def updateFirstBet (u : Nat) (g : String) (c : Nat) (choice : Int) :
    List BetRow → List BetRow
  | [] => []
  | b :: bs =>
    if b.user_id = u ∧ b.game_id = g ∧ b.channel_id = c then
      { b with choice := choice } :: bs
    else b :: updateFirstBet u g c choice bs

/-- One voter iteration of `sync_poll_bets` (main.py lines 86-108):
create the user when unseen, then upsert the bet keyed by (user, game,
channel) with choice `answer.id - 1`. -/
def syncVoter (g : String) (c : Nat) (st : BetsState) (v : VoterObs) :
    BetsState :=
  { users :=
      if st.users.any (fun u => u.id = v.id) then st.users
      else st.users ++ [⟨v.id, v.name⟩]
    bets :=
      if st.bets.any (fun b =>
          b.user_id = v.id ∧ b.game_id = g ∧ b.channel_id = c) then
        updateFirstBet v.id g c (v.answer - 1) st.bets
      else st.bets ++ [⟨v.id, g, c, v.answer - 1⟩] }

/-- The deletion phase of `sync_poll_bets` (main.py lines 110-117):
delete every bet of this (game, channel) whose user is not among the
observed voter ids. -/
def deleteAbsent (g : String) (c : Nat) (voterIds : List Nat)
    (bets : List BetRow) : List BetRow :=
  bets.filter (fun b =>
    ¬(b.game_id = g ∧ b.channel_id = c ∧ b.user_id ∉ voterIds))

/-- `MyClient.sync_poll_bets` (main.py lines 76-119) for the poll of
(game `g`, channel `c`) with the flattened observed voters `obs`:
upsert every observed voter, then delete the bets of absent voters. -/
def syncPollBets (st : BetsState) (g : String) (c : Nat)
    (obs : List VoterObs) : BetsState :=
  let st' := obs.foldl (syncVoter g c) st
  ⟨st'.users, deleteAbsent g c (obs.map (fun v => v.id)) st'.bets⟩

/-- The unique-constraint key of a bet (models.py
`uq_bet_user_game_channel`). -/
def betKey (b : BetRow) : Nat × String × Nat :=
  (b.user_id, b.game_id, b.channel_id)

/-- The database unique constraint on bets: pairwise distinct
(user_id, game_id, channel_id) keys. -/
def BetKeysNodup (bets : List BetRow) : Prop :=
  (bets.map betKey).Nodup

/-- A sample schedule row used to exercise ingestion concretely. -/
def schedSample : SchedRow :=
  ⟨"2024_01_KC_BUF", "REG", "KC", "BUF", .num 24, .num 21, .num 3, 100⟩

/-- A sample database state for the ledger reconciler: one stale bet by
user 1 on the poll (game "g1", channel 5), one bet by the now-absent
user 2, and one bet on another channel that must stay untouched. -/
def betsSample : BetsState :=
  ⟨[⟨1, "alice"⟩, ⟨2, "bob"⟩],
   [⟨1, "g1", 5, 0⟩, ⟨2, "g1", 5, 1⟩, ⟨2, "g1", 6, 1⟩]⟩

/-- A sample observed voter set: user 1 switched to answer 2 and the
new user 3 voted answer 3; user 2 no longer votes. -/
def obsSample : List VoterObs :=
  [⟨1, "alice", 2⟩, ⟨3, "carol", 3⟩]

/-- A `poll` row (models.py `Poll`). -/
structure PollRow where
  id : Nat
  channel_id : Nat
  game_id : String
  message_id : Option Nat
  closed : Bool
  result_posted : Bool
deriving DecidableEq, Repr

/-- The outcome of the external Discord calls `close_polls` makes for
one poll (main.py lines 243-250): everything up to and including
`message.poll.end()` happens BEFORE `poll.closed = True`, the unpin
after it. -/
inductive CloseExt where
  | ok
  | failBeforeClose
  | failAfterClose
deriving DecidableEq, Repr

/-- The per-poll body of `close_polls` (main.py lines 241-253): a poll
selected by `closed == False ∧ kickoff ≤ now` fetches the channel and
message and finalizes the external poll inside a `try`; an exception
raised there is logged and skips the `poll.closed = True` assignment; a
failure of the later unpin leaves the already-set flag intact. -/
def closePollStep (now : Int) (kickoffOf : String → Int)
    (ext : Nat → CloseExt) (p : PollRow) : PollRow :=
  if p.closed = false ∧ kickoffOf p.game_id ≤ now then
    match ext p.id with
    | .failBeforeClose => p
    | _ => { p with closed := true }
  else p

/-- `MyClient.close_polls` (main.py lines 231-256) on the poll table:
`kickoffOf` gives each poll's game kickoff, `ext` the outcome of the
external calls for each poll id. -/
def closePolls (now : Int) (kickoffOf : String → Int)
    (ext : Nat → CloseExt) (polls : List PollRow) : List PollRow :=
  polls.map (closePollStep now kickoffOf ext)

/-- A poll past kickoff that is still open. -/
def pollStuck : PollRow := ⟨1, 5, "g1", some 99, false, false⟩

/-- The lifecycle flags of one Poll row for a fixed (channel, game)
pair: external message handle, closed, result_posted.  `none` at the
`Option PollFlags` level is the PENDING state (no row). -/
structure PollFlags where
  message_id : Option Nat
  closed : Bool
  result_posted : Bool
deriving DecidableEq, Repr

/-- One firing of one of the lifecycle tasks on one active
(channel, game) pair whose game has kickoff `kickoff` and result
`result`.  The constructors follow the sources: `create` is
`create_polls` (tasks.py lines 94-125, 7-day forward window, fresh row
with both flags false); `openPoll` is `post_poll` (main.py lines
139-195, sets the message handle, on HTTP failure stays CREATED);
`closeOk`/`closeFail` are `close_polls` (main.py lines 231-256,
guarded by `closed == False ∧ kickoff ≤ now`, the flag is set only
when the external finalization does not raise); `postResults` is
`post_results` (main.py lines 262-360, guarded by
`result_posted == False ∧ result ≠ None` — it does NOT require
`closed`). -/
inductive LifeStep (kickoff : Int) (result : Option Int) :
    Option PollFlags → Option PollFlags → Prop where
  | create (now : Int) :
      now ≤ kickoff → kickoff ≤ now + 604800 →
      LifeStep kickoff result none (some ⟨none, false, false⟩)
  | openPoll (p : PollFlags) (m : Nat) :
      p.message_id = none →
      LifeStep kickoff result (some p)
        (some { p with message_id := some m })
  | openPollFail (p : PollFlags) :
      p.message_id = none →
      LifeStep kickoff result (some p) (some p)
  | closeOk (p : PollFlags) (now : Int) :
      p.closed = false → kickoff ≤ now →
      LifeStep kickoff result (some p) (some { p with closed := true })
  | closeFail (p : PollFlags) (now : Int) :
      p.closed = false → kickoff ≤ now →
      LifeStep kickoff result (some p) (some p)
  | postResults (p : PollFlags) :
      p.result_posted = false → result ≠ none →
      LifeStep kickoff result (some p)
        (some { p with result_posted := true })
  | postResultsFail (p : PollFlags) :
      p.result_posted = false → result ≠ none →
      LifeStep kickoff result (some p) (some p)

/-- The users considered by `post_leaderboard_for_channel` (main.py
lines 387-392): `select User join Bet where Bet.channel_id == c`. -/
def usersWithBets (bets : List BetRow) (c : Nat) : List Nat :=
  ((bets.filter (fun b => b.channel_id = c)).map
    (fun b => b.user_id)).dedup

/-- One user's leaderboard score (main.py lines 393-397): the sum of
`earned_points` over the user's bets in the channel.  The code assumes
every summand is an int (a scaling row exists); `getD 0` stands for
that assumption, which the theorems carry as a hypothesis. -/
def scoreOf (scalings : List ScalingRow) (games : List GameRow)
    (bets : List BetRow) (c : Nat) (u : Nat) : Int :=
  ((bets.filter (fun b => b.user_id = u ∧ b.channel_id = c)).map
    (fun b => (earnedPoints scalings games b).getD 0)).sum

/-- Descending insertion into a sorted list. -/
def insertDesc (x : Int) : List Int → List Int
  | [] => [x]
  | y :: ys => if y ≤ x then x :: y :: ys else y :: insertDesc x ys

/-- `sorted(..., reverse=True)` on the distinct score keys (main.py
lines 410-411). -/
def sortDesc (l : List Int) : List Int := l.foldr insertDesc []

/-- The `leaderboard` dict of main.py lines 382-401, as the descending
list of (score, users with that score). -/
def leaderboardGroups (scalings : List ScalingRow)
    (games : List GameRow) (bets : List BetRow) (c : Nat) :
    List (Int × List Nat) :=
  (sortDesc ((usersWithBets bets c).map
      (scoreOf scalings games bets c)).dedup).map
    (fun sc => (sc, (usersWithBets bets c).filter
      (fun u => scoreOf scalings games bets c u = sc)))

/-- The place assignment loop of main.py lines 409-433: `place` starts
at 1 and advances by the size of each tied group
(`place += len(user_ids)`). -/
def assignPlaces (p : Nat) :
    List (Int × List Nat) → List (Nat × Int × List Nat)
  | [] => []
  | (s, us) :: rest => (p, s, us) :: assignPlaces (p + us.length) rest

/-- `post_leaderboard_for_channel` (main.py lines 381-433) reduced to
its ranking content: the list of (place, score, tied users). -/
def postLeaderboard (scalings : List ScalingRow) (games : List GameRow)
    (bets : List BetRow) (c : Nat) : List (Nat × Int × List Nat) :=
  assignPlaces 1 (leaderboardGroups scalings games bets c)

/-- Two finished games (outcome HOME) of gametype "REG", to exercise
the leaderboard concretely. -/
def c5Games : List GameRow :=
  [⟨"gA", "KC", "BUF", some 24, some 21, some 3, .HOME, "REG", 0⟩,
   ⟨"gB", "SF", "SEA", some 30, some 20, some 10, .HOME, "REG", 0⟩]

/-- A factor-5 scaling row for channel 7. -/
def c5Scalings : List ScalingRow := [⟨7, "REG", 5⟩]

/-- Bets of channel 7 realizing the spec's tie example: users 1 and 2
score 10 each, user 3 scores 5. -/
def c5Bets : List BetRow :=
  [⟨1, "gA", 7, 0⟩, ⟨1, "gB", 7, 0⟩, ⟨2, "gA", 7, 0⟩,
   ⟨2, "gB", 7, 0⟩, ⟨3, "gA", 7, 0⟩, ⟨3, "gB", 7, 1⟩]

/-- The game table contains a row with the given primary key. -/
def HasId (games : List GameRow) (i : String) : Prop :=
  ∃ g ∈ games, g.id = i

/-- The identity map contains an NFL_DATA_PY identifier for the
schedule row's game id. -/
def HasNflIdent (idents : List GameIdentRow) (r : SchedRow) : Prop :=
  ∃ gi ∈ idents,
    gi.source = ApiSource.NFL_DATA_PY ∧ gi.external_id = r.game_id

/-- A finished game whose outcome is HOME, used to probe
`earned_points` when no scaling row exists. -/
def gameNoScaling : GameRow :=
  ⟨"2024_01_KC_BUF", "KC", "BUF", some 24, some 21, some 3,
   .HOME, "REG", 0⟩

/-- A bet on that game whose choice (0 = HOME) matches the outcome. -/
def betNoScaling : BetRow := ⟨1, "2024_01_KC_BUF", 10, 0⟩

/-- A canonical game with kickoff at time 0, to exercise the matching
window. -/
def gameAtZero : GameRow :=
  ⟨"2024_02_KC_BUF", "KC", "BUF", none, none, none,
   .NOT_FINISHED, "REG", 0⟩


/-- Team resolution in `update_espn_games` (tasks.py lines 203-223):
`select Team join TeamIdentifier where source == ESPN_V2 and
external_id == ...`, keeping the canonical team id. -/
def resolveTeam (teamIdents : List TeamIdentRow) (ext : String) :
    Option String :=
  (teamIdents.find? (fun t =>
    t.source = ApiSource.ESPN_V2 ∧ t.external_id = ext)).map
    (fun t => t.team_id)

/-- The time-windowed, team-order-tolerant game search of
`update_espn_games` (tasks.py lines 236-261): first a `select Game`
with the direct home/away assignment and `kickoff between k-12h and
k+12h` (12 h = 43200 s, inclusive bounds), then — only if that found
nothing — the same search with home and away swapped. -/
def matchGame (games : List GameRow) (homeId awayId : String)
    (k : Int) : Option GameRow :=
  match games.find? (fun g =>
      g.home_team_id = homeId ∧ g.away_team_id = awayId ∧
      k - 43200 ≤ g.kickoff ∧ g.kickoff ≤ k + 43200) with
  | some g => some g
  | none =>
    games.find? (fun g =>
      g.home_team_id = awayId ∧ g.away_team_id = homeId ∧
      k - 43200 ≤ g.kickoff ∧ g.kickoff ≤ k + 43200)

/-- The per-event body of `update_espn_games` (tasks.py lines 186-273):
skip "tbd" events, skip events already mapped (idempotence), resolve
both teams (the competitors are swapped when the first is flagged
"away"), locate the canonical game via `matchGame`, and record a new
GameIdentifier; unresolved teams or an unmatched game are reported and
skipped.  No branch touches the `game` table. -/
def processEvent (st : ReconState) (e : EspnEvent) : ReconState :=
  if e.name.toLower.startsWith "tbd" then st
  else if st.gameIdents.any (fun gi =>
      gi.source = ApiSource.ESPN_V2 ∧ gi.external_id = e.external_id)
    then st
  else
    match
      resolveTeam st.teamIdents
        (if e.comp0_homeAway = "away" then e.comp1_team else e.comp0_team),
      resolveTeam st.teamIdents
        (if e.comp0_homeAway = "away" then e.comp0_team else e.comp1_team)
    with
    | some h, some a =>
      match matchGame st.games h a e.kickoff with
      | some g =>
        { st with gameIdents :=
            st.gameIdents ++ [⟨g.id, ApiSource.ESPN_V2, e.external_id⟩] }
      | none => st
    | _, _ => st

/-- `update_espn_games` (tasks.py lines 164-274) over a batch of
fetched events (the concatenation of the per-year scoreboard
responses). -/
def updateEspnGames (st : ReconState) (events : List EspnEvent) :
    ReconState :=
  events.foldl processEvent st

end Otterball

namespace Otterball

/-- Claim C9: `Outcome.from_result` is the pure three-way outcome
derivation: `from_result(null) = NOT_FINISHED`, `from_result(0) = TIE`,
`from_result(n) = HOME` for every `n > 0`, `from_result(n) = AWAY` for
every `n < 0`. -/
theorem fromResult_three_way :
    Outcome.fromResult none = .NOT_FINISHED ∧
    Outcome.fromResult (some 0) = .TIE ∧
    (∀ n : Int, 0 < n → Outcome.fromResult (some n) = .HOME) ∧
    (∀ n : Int, n < 0 → Outcome.fromResult (some n) = .AWAY) := by
  refine ⟨rfl, rfl, ?_, ?_⟩
  · intro n hn
    simp only [Outcome.fromResult]
    rw [if_neg (by omega), if_neg (by omega)]
  · intro n hn
    simp only [Outcome.fromResult]
    rw [if_neg (by omega), if_pos hn]

/-- Witness for C9 at concrete positive and negative results. -/
theorem fromResult_three_way_witness :
    Outcome.fromResult (some 7) = .HOME ∧
    Outcome.fromResult (some (-3)) = .AWAY :=
  ⟨fromResult_three_way.2.2.1 7 (by decide),
   fromResult_three_way.2.2.2 (-3) (by decide)⟩

/-- Counterexample to claim C4: with no `gametype_scaling` row for the
bet's (channel, gametype), a matching bet's `earned_points` is the SQL
NULL of the scalar subquery (`none`), not 1 as the claim states. -/
theorem earnedPoints_no_scaling_is_null_not_one :
    earnedPoints [] [gameNoScaling] betNoScaling = none ∧
    ¬ earnedPoints [] [gameNoScaling] betNoScaling = some 1 := by
  decide

/-- Claim C4 (amended): `earned_points` is 0 when the bet's choice
differs from the game's outcome; when it matches it is the
`GameTypeScaling.factor` for the bet's (channel_id, game.gametype_id)
when such a row exists, and NULL (`none`, not 1) when no scaling row
exists. -/
theorem earnedPoints_cases (scalings : List ScalingRow)
    (games : List GameRow) (b : BetRow) (g : GameRow)
    (hg : games.find? (fun g => g.id = b.game_id) = some g) :
    (b.choice ≠ g.outcome.val →
      earnedPoints scalings games b = some 0) ∧
    (b.choice = g.outcome.val →
      ∀ s, scalings.find? (fun s =>
          s.channel_id = b.channel_id ∧ s.gametype_id = g.gametype_id)
          = some s →
        earnedPoints scalings games b = some s.factor) ∧
    (b.choice = g.outcome.val →
      scalings.find? (fun s =>
          s.channel_id = b.channel_id ∧ s.gametype_id = g.gametype_id)
          = none →
        earnedPoints scalings games b = none) := by
  refine ⟨fun hne => ?_, fun heq s hs => ?_, fun heq hs => ?_⟩
  · simp [earnedPoints, hg, hne]
  · have hpp : possiblePoints scalings games b = some s.factor := by
      unfold possiblePoints
      rw [hg]
      show (scalings.find? (fun s =>
        s.channel_id = b.channel_id ∧ s.gametype_id = g.gametype_id)).map
        (fun s => s.factor) = some s.factor
      rw [hs, Option.map_some']
    simp [earnedPoints, hg, heq, hpp]
  · have hpp : possiblePoints scalings games b = none := by
      unfold possiblePoints
      rw [hg]
      show (scalings.find? (fun s =>
        s.channel_id = b.channel_id ∧ s.gametype_id = g.gametype_id)).map
        (fun s => s.factor) = none
      rw [hs, Option.map_none']
    simp [earnedPoints, hg, heq, hpp]

/-- Witness for the amended C4 at a concrete state: a scaling row with
factor 3 gives 3 points on a hit, 0 on a miss, and NULL with the
scaling row removed. -/
theorem earnedPoints_cases_witness :
    earnedPoints [⟨10, "REG", 3⟩] [gameNoScaling] betNoScaling
      = some 3 ∧
    earnedPoints [⟨10, "REG", 3⟩] [gameNoScaling]
      { betNoScaling with choice := 1 } = some 0 ∧
    earnedPoints [] [gameNoScaling] betNoScaling = none := by
  refine ⟨?_, ?_, ?_⟩
  · exact (earnedPoints_cases [⟨10, "REG", 3⟩] [gameNoScaling]
      betNoScaling gameNoScaling (by decide)).2.1 (by decide)
      ⟨10, "REG", 3⟩ (by decide)
  · exact (earnedPoints_cases [⟨10, "REG", 3⟩] [gameNoScaling]
      { betNoScaling with choice := 1 } gameNoScaling (by decide)).1
      (by decide)
  · exact (earnedPoints_cases [] [gameNoScaling]
      betNoScaling gameNoScaling (by decide)).2.2 (by decide) (by decide)

/-- Claim C10: if the `gametype` store already contains the row with id
"REG" (checked first), `populate_game_types` returns immediately and
adds nothing, whatever the state of the other four types; when none of
the five seeded ids is present it inserts all five. -/
theorem populateGameTypes_early_return :
    (∀ store : List GameTypeRow, (∃ r ∈ store, r.id = "REG") →
      populateGameTypes store = store) ∧
    (∀ store : List GameTypeRow,
      (∀ r ∈ store, r.id ≠ "REG" ∧ r.id ≠ "DIV" ∧ r.id ≠ "WC" ∧
        r.id ≠ "CON" ∧ r.id ≠ "SB") →
      populateGameTypes store = store ++ defaultGameTypes) := by
  constructor
  · intro store h
    obtain ⟨r, hr, hid⟩ := h
    have hany : store.any (fun r => r.id = "REG") = true := by
      simp only [List.any_eq_true, decide_eq_true_eq]
      exact ⟨r, hr, hid⟩
    simp [populateGameTypes, defaultGameTypes, populateGameTypesAux,
      hany]
  · intro store h
    have h1 : store.any (fun r => r.id = "REG") = false := by
      simp only [List.any_eq_false, decide_eq_true_eq]
      exact fun r hr => (h r hr).1
    have h2 : store.any (fun r => r.id = "DIV") = false := by
      simp only [List.any_eq_false, decide_eq_true_eq]
      exact fun r hr => (h r hr).2.1
    have h3 : store.any (fun r => r.id = "WC") = false := by
      simp only [List.any_eq_false, decide_eq_true_eq]
      exact fun r hr => (h r hr).2.2.1
    have h4 : store.any (fun r => r.id = "CON") = false := by
      simp only [List.any_eq_false, decide_eq_true_eq]
      exact fun r hr => (h r hr).2.2.2.1
    have h5 : store.any (fun r => r.id = "SB") = false := by
      simp only [List.any_eq_false, decide_eq_true_eq]
      exact fun r hr => (h r hr).2.2.2.2
    simp [populateGameTypes, defaultGameTypes, populateGameTypesAux,
      List.any_append, h1, h2, h3, h4, h5]

/-- Witness for C10: a store holding only "REG" is untouched even
though the other four types are absent; the empty store receives all
five rows. -/
theorem populateGameTypes_early_return_witness :
    populateGameTypes [⟨"REG", "Regular Season"⟩]
      = [⟨"REG", "Regular Season"⟩] ∧
    populateGameTypes [] = defaultGameTypes :=
  ⟨populateGameTypes_early_return.1 [⟨"REG", "Regular Season"⟩]
    ⟨⟨"REG", "Regular Season"⟩, by decide, by decide⟩,
   populateGameTypes_early_return.2 [] (by simp)⟩

/-- Frame property of one reconciler event: the `game` table and the
team identity map are untouched, the game identity map only grows by
appended rows. -/
theorem processEvent_frame (st : ReconState) (e : EspnEvent) :
    (processEvent st e).games = st.games ∧
    (processEvent st e).teamIdents = st.teamIdents ∧
    ∃ added, (processEvent st e).gameIdents = st.gameIdents ++ added := by
  unfold processEvent
  repeat' split
  all_goals first
    | exact ⟨rfl, rfl, _, rfl⟩
    | exact ⟨rfl, rfl, [], by simp⟩

/-- Claim C7: for every event batch, `update_espn_games` leaves the set
of canonical Game rows unchanged (none created, deleted or modified)
and leaves the team identity map unchanged; only GameIdentifier rows
are added. -/
theorem updateEspnGames_frame (events : List EspnEvent)
    (st : ReconState) :
    (updateEspnGames st events).games = st.games ∧
    (updateEspnGames st events).teamIdents = st.teamIdents ∧
    ∃ added,
      (updateEspnGames st events).gameIdents = st.gameIdents ++ added := by
  induction events generalizing st with
  | nil => exact ⟨rfl, rfl, [], by simp [updateEspnGames]⟩
  | cons e rest ih =>
    obtain ⟨g1, g2, a0, g3⟩ := processEvent_frame st e
    obtain ⟨h1, h2, a, h3⟩ := ih (processEvent st e)
    have hstep : updateEspnGames st (e :: rest)
        = updateEspnGames (processEvent st e) rest := rfl
    rw [hstep]
    exact ⟨h1.trans g1, h2.trans g2, a0 ++ a,
      by rw [h3, g3, List.append_assoc]⟩

/-- Claim C6: the time-windowed, order-tolerant search.  (a) If some
game matches the event's teams in either order within ±12 h (43200 s,
inclusive), `matchGame` returns exactly one game, and that game matches
the teams in one of the two orders inside the window.  (b) The swapped
order is tried only when the direct order finds nothing: a direct hit
is returned as is.  (c) If every game matching the teams (in either
order) lies strictly outside the window — e.g. 13 h off — the search
returns `none` and the event is reported unmatched. -/
theorem matchGame_time_window (games : List GameRow) (h a : String)
    (k : Int) :
    ((∃ g ∈ games,
        ((g.home_team_id = h ∧ g.away_team_id = a) ∨
         (g.home_team_id = a ∧ g.away_team_id = h)) ∧
        k - 43200 ≤ g.kickoff ∧ g.kickoff ≤ k + 43200) →
      ∃ g', matchGame games h a k = some g' ∧
        ((g'.home_team_id = h ∧ g'.away_team_id = a) ∨
         (g'.home_team_id = a ∧ g'.away_team_id = h)) ∧
        k - 43200 ≤ g'.kickoff ∧ g'.kickoff ≤ k + 43200) ∧
    (∀ g', games.find? (fun g =>
        g.home_team_id = h ∧ g.away_team_id = a ∧
        k - 43200 ≤ g.kickoff ∧ g.kickoff ≤ k + 43200) = some g' →
      matchGame games h a k = some g') ∧
    ((∀ g ∈ games,
        ((g.home_team_id = h ∧ g.away_team_id = a) ∨
         (g.home_team_id = a ∧ g.away_team_id = h)) →
        g.kickoff < k - 43200 ∨ k + 43200 < g.kickoff) →
      matchGame games h a k = none) := by
  refine ⟨?_, ?_, ?_⟩
  · rintro ⟨g, hg, hteam, hw1, hw2⟩
    cases hd : games.find? (fun g =>
        g.home_team_id = h ∧ g.away_team_id = a ∧
        k - 43200 ≤ g.kickoff ∧ g.kickoff ≤ k + 43200) with
    | some g' =>
      have hp := List.find?_some hd
      simp only [decide_eq_true_eq] at hp
      exact ⟨g', by unfold matchGame; rw [hd],
        Or.inl ⟨hp.1, hp.2.1⟩, hp.2.2.1, hp.2.2.2⟩
    | none =>
      have hswap : g.home_team_id = a ∧ g.away_team_id = h := by
        rcases hteam with hdir | hsw
        · exfalso
          have := List.find?_eq_none.mp hd g hg
          simp only [decide_eq_true_eq] at this
          exact this ⟨hdir.1, hdir.2, hw1, hw2⟩
        · exact hsw
      have hsome : (games.find? (fun g =>
          g.home_team_id = a ∧ g.away_team_id = h ∧
          k - 43200 ≤ g.kickoff ∧ g.kickoff ≤ k + 43200)).isSome := by
        rw [List.find?_isSome]
        exact ⟨g, hg, by
          simp only [decide_eq_true_eq]
          exact ⟨hswap.1, hswap.2, hw1, hw2⟩⟩
      obtain ⟨g', hg'⟩ := Option.isSome_iff_exists.mp hsome
      have hp := List.find?_some hg'
      simp only [decide_eq_true_eq] at hp
      exact ⟨g', by unfold matchGame; rw [hd]; exact hg',
        Or.inr ⟨hp.1, hp.2.1⟩, hp.2.2.1, hp.2.2.2⟩
  · intro g' hfind
    unfold matchGame
    rw [hfind]
  · intro hall
    have hd : games.find? (fun g =>
        g.home_team_id = h ∧ g.away_team_id = a ∧
        k - 43200 ≤ g.kickoff ∧ g.kickoff ≤ k + 43200) = none := by
      rw [List.find?_eq_none]
      intro g hg
      simp only [decide_eq_true_eq]
      rintro ⟨ht1, ht2, hw1, hw2⟩
      rcases hall g hg (Or.inl ⟨ht1, ht2⟩) with hlt | hlt <;> omega
    have hs : games.find? (fun g =>
        g.home_team_id = a ∧ g.away_team_id = h ∧
        k - 43200 ≤ g.kickoff ∧ g.kickoff ≤ k + 43200) = none := by
      rw [List.find?_eq_none]
      intro g hg
      simp only [decide_eq_true_eq]
      rintro ⟨ht1, ht2, hw1, hw2⟩
      rcases hall g hg (Or.inr ⟨ht1, ht2⟩) with hlt | hlt <;> omega
    unfold matchGame
    rw [hd]
    exact hs

/-- Witness for C6: an event exactly 12 h off is matched to the game;
an event 13 h (46800 s) off with the same teams is unmatched. -/
theorem matchGame_time_window_witness :
    (∃ g', matchGame [gameAtZero] "KC" "BUF" 43200 = some g' ∧
      ((g'.home_team_id = "KC" ∧ g'.away_team_id = "BUF") ∨
       (g'.home_team_id = "BUF" ∧ g'.away_team_id = "KC")) ∧
      (43200 : Int) - 43200 ≤ g'.kickoff ∧
      g'.kickoff ≤ (43200 : Int) + 43200) ∧
    matchGame [gameAtZero] "KC" "BUF" 46800 = none :=
  ⟨(matchGame_time_window [gameAtZero] "KC" "BUF" 43200).1
    ⟨gameAtZero, by decide, by decide, by decide, by decide⟩,
   (matchGame_time_window [gameAtZero] "KC" "BUF" 46800).2.2
    (by decide)⟩

/-- Merging the same schedule row twice equals merging it once: the
second merge rewrites exactly the fields the first one set. -/
theorem mergeGame_mergeGame (g : GameRow) (r' r : SchedRow) :
    mergeGame (mergeGame g r') r = mergeGame g r := rfl

/-- `mergeGame` keeps the primary key. -/
theorem mergeGame_id (g : GameRow) (r : SchedRow) :
    (mergeGame g r).id = g.id := rfl

/-- Re-merging a freshly inserted row with its own schedule row is the
identity. -/
theorem mergeGame_newGame (r : SchedRow) :
    mergeGame (newGame r) r = newGame r := rfl

/-- Merging after any chain of merges equals merging the original row:
the static fields survive the chain. -/
theorem mergeGame_foldl (r : SchedRow) :
    ∀ (rs : List SchedRow) (g : GameRow),
      mergeGame (rs.foldl mergeGame g) r = mergeGame g r
  | [], _ => rfl
  | r₀ :: rs', g => by
    show mergeGame (rs'.foldl mergeGame (mergeGame g r₀)) r = _
    rw [mergeGame_foldl r rs' (mergeGame g r₀), mergeGame_mergeGame]

/-- Mapping a list through a pointwise-identity function is the
identity. -/
theorem list_map_self {α : Type} (l : List α) (f : α → α)
    (h : ∀ x ∈ l, f x = x) : l.map f = l := by
  induction l with
  | nil => rfl
  | cons a t ih =>
    rw [List.map_cons, h a (List.mem_cons_self a t),
      ih (fun x hx => h x (List.mem_cons_of_mem a hx))]

/-- An upsert preserves every id already present. -/
theorem hasId_upsertGame_of_hasId (games : List GameRow) (r : SchedRow)
    (i : String) (h : HasId games i) : HasId (upsertGame games r) i := by
  obtain ⟨g, hg, hid⟩ := h
  unfold upsertGame
  split
  · refine ⟨if g.id = r.game_id then mergeGame g r else g,
      List.mem_map_of_mem _ hg, ?_⟩
    split
    · exact hid
    · exact hid
  · exact ⟨g, List.mem_append_left _ hg, hid⟩

/-- After an upsert the upserted id is present. -/
theorem hasId_upsertGame_self (games : List GameRow) (r : SchedRow) :
    HasId (upsertGame games r) r.game_id := by
  unfold upsertGame
  split
  · next hany =>
    rw [List.any_eq_true] at hany
    obtain ⟨g, hg, hid⟩ := hany
    rw [decide_eq_true_eq] at hid
    exact ⟨mergeGame g r,
      List.mem_map.mpr ⟨g, hg, by rw [if_pos hid]⟩, hid⟩
  · exact ⟨newGame r, List.mem_append_right _ (List.mem_singleton_self _),
      rfl⟩

/-- The whole ingestion pass preserves every id already present. -/
theorem hasId_updateGamesTable_of_hasId (batch : List SchedRow) :
    ∀ (games : List GameRow) (i : String), HasId games i →
      HasId (updateGamesTable games batch) i := by
  induction batch with
  | nil => exact fun _ _ h => h
  | cons r rest ih =>
    exact fun games i h => ih _ i (hasId_upsertGame_of_hasId games r i h)

/-- After an ingestion pass every batch row's id is present. -/
theorem hasId_updateGamesTable (batch : List SchedRow) :
    ∀ (games : List GameRow) (r : SchedRow), r ∈ batch →
      HasId (updateGamesTable games batch) r.game_id := by
  induction batch with
  | nil => intro _ r hr; cases hr
  | cons r₀ rest ih =>
    intro games r hr
    rcases List.mem_cons.mp hr with rfl | hr'
    · exact hasId_updateGamesTable_of_hasId rest (upsertGame games r) _
        (hasId_upsertGame_self games r)
    · exact ih (upsertGame games r₀) r hr'

/-- When every batch id is already present, an ingestion pass is a pure
per-row map: each game is folded through the batch rows carrying its
id. -/
theorem updateGamesTable_all_present (batch : List SchedRow) :
    ∀ games : List GameRow,
      (∀ r ∈ batch, HasId games r.game_id) →
      updateGamesTable games batch
        = games.map (fun g =>
            (batch.filter (fun r => r.game_id = g.id)).foldl mergeGame g) := by
  induction batch with
  | nil =>
    intro games _
    simp [updateGamesTable]
  | cons r rest ih =>
    intro games hall
    obtain ⟨g0, hg0, hid0⟩ := hall r (List.mem_cons_self r rest)
    have hany : games.any (fun g => g.id = r.game_id) = true := by
      rw [List.any_eq_true]
      exact ⟨g0, hg0, decide_eq_true hid0⟩
    have hup : upsertGame games r
        = games.map (fun g =>
            if g.id = r.game_id then mergeGame g r else g) := by
      unfold upsertGame
      rw [if_pos hany]
    have hpres : ∀ i, HasId games i →
        HasId (games.map (fun g =>
          if g.id = r.game_id then mergeGame g r else g)) i := by
      rintro i ⟨g, hg, hid⟩
      refine ⟨if g.id = r.game_id then mergeGame g r else g,
        List.mem_map_of_mem _ hg, ?_⟩
      split
      · exact hid
      · exact hid
    have hstep : updateGamesTable games (r :: rest)
        = updateGamesTable (upsertGame games r) rest := rfl
    rw [hstep, hup, ih _ (fun r' hr' => hpres r'.game_id
      (hall r' (List.mem_cons_of_mem r hr'))), List.map_map]
    have hfun : ((fun g =>
          (rest.filter (fun r' => r'.game_id = g.id)).foldl mergeGame g) ∘
        (fun g => if g.id = r.game_id then mergeGame g r else g))
        = fun g => ((r :: rest).filter
            (fun r' => r'.game_id = g.id)).foldl mergeGame g := by
      funext g
      by_cases hgr : g.id = r.game_id
      · simp only [Function.comp_apply, if_pos hgr, mergeGame_id]
        have hfilt : (r :: rest).filter (fun r' => r'.game_id = g.id)
            = r :: rest.filter (fun r' => r'.game_id = g.id) := by
          simp [List.filter_cons, hgr.symm]
        rw [hfilt, List.foldl_cons]
      · simp only [Function.comp_apply, if_neg hgr]
        have hfilt : (r :: rest).filter (fun r' => r'.game_id = g.id)
            = rest.filter (fun r' => r'.game_id = g.id) := by
          have : ¬ r.game_id = g.id := fun hc => hgr hc.symm
          simp [List.filter_cons, this]
        rw [hfilt]
    rw [hfun]

/-- A game present after an ingestion pass whose id occurs in the batch
absorbs a merge with the last batch row carrying its id. -/
theorem mergeGame_last_of_mem (batch : List SchedRow) :
    ∀ (games : List GameRow) (g : GameRow),
      g ∈ updateGamesTable games batch →
      ∀ (rs : List SchedRow) (rl : SchedRow),
        batch.filter (fun r => r.game_id = g.id) = rs ++ [rl] →
        mergeGame g rl = g := by
  induction batch using List.reverseRecOn with
  | nil =>
    intro games g _ rs rl hfilt
    exact absurd hfilt.symm (List.append_ne_nil_of_right_ne_nil rs
      (by simp))
  | append_singleton b₀ rl₀ ih =>
    intro games g hg rs rl hfilt
    have hstep : updateGamesTable games (b₀ ++ [rl₀])
        = upsertGame (updateGamesTable games b₀) rl₀ := by
      simp [updateGamesTable, List.foldl_append]
    rw [hstep] at hg
    by_cases hid : rl₀.game_id = g.id
    · have hfilt' : (b₀ ++ [rl₀]).filter (fun r => r.game_id = g.id)
          = b₀.filter (fun r => r.game_id = g.id) ++ [rl₀] := by
        simp [List.filter_append, hid]
      rw [hfilt'] at hfilt
      have hrl : rl = rl₀ := by
        have hlast := congrArg List.getLast? hfilt
        rw [List.getLast?_concat, List.getLast?_concat] at hlast
        exact (Option.some.inj hlast).symm
      subst hrl
      unfold upsertGame at hg
      split at hg
      · next hany =>
        obtain ⟨a, ha, hag⟩ := List.mem_map.mp hg
        by_cases haid : a.id = rl.game_id
        · rw [if_pos haid] at hag
          rw [← hag, mergeGame_mergeGame]
        · rw [if_neg haid] at hag
          exact absurd (by rw [hag]; exact hid.symm) haid
      · next hany =>
        rcases List.mem_append.mp hg with hgA | hgS
        · exfalso
          apply hany
          rw [List.any_eq_true]
          exact ⟨g, hgA, decide_eq_true hid.symm⟩
        · have hgnew : g = newGame rl := by simpa using hgS
          rw [hgnew, mergeGame_newGame]
    · have hfilt' : (b₀ ++ [rl₀]).filter (fun r => r.game_id = g.id)
          = b₀.filter (fun r => r.game_id = g.id) := by
        simp [List.filter_cons, List.filter_append, hid]
      rw [hfilt'] at hfilt
      have hgA : g ∈ updateGamesTable games b₀ := by
        unfold upsertGame at hg
        split at hg
        · obtain ⟨a, ha, hag⟩ := List.mem_map.mp hg
          by_cases haid : a.id = rl₀.game_id
          · rw [if_pos haid] at hag
            exact absurd (by rw [← hag]; exact haid.symm) hid
          · rw [if_neg haid] at hag
            exact hag ▸ ha
        · rcases List.mem_append.mp hg with h | h
          · exact h
          · exfalso
            have hgnew : g = newGame rl₀ := by simpa using h
            exact hid (by rw [hgnew]; rfl)
      exact ih games g hgA rs rl hfilt

/-- Ingesting the same batch a second time leaves the game table
unchanged. -/
theorem updateGamesTable_idem (games : List GameRow)
    (batch : List SchedRow) :
    updateGamesTable (updateGamesTable games batch) batch
      = updateGamesTable games batch := by
  have hall : ∀ r ∈ batch,
      HasId (updateGamesTable games batch) r.game_id :=
    fun r hr => hasId_updateGamesTable batch games r hr
  rw [updateGamesTable_all_present batch _ hall]
  apply list_map_self
  intro g hg
  rcases List.eq_nil_or_concat
      (batch.filter (fun r => r.game_id = g.id)) with hnil | hcat
  · rw [hnil]
    rfl
  · obtain ⟨rs, rl, hcat⟩ := hcat
    rw [List.concat_eq_append] at hcat
    rw [hcat, List.foldl_append, List.foldl_cons, List.foldl_nil,
      mergeGame_foldl]
    exact mergeGame_last_of_mem batch games g hg rs rl hcat

/-- An identifier upsert preserves existing identifiers. -/
theorem hasNflIdent_upsert_of_hasNflIdent (idents : List GameIdentRow)
    (r r' : SchedRow) (h : HasNflIdent idents r') :
    HasNflIdent (upsertNflIdent idents r) r' := by
  obtain ⟨gi, hgi, hp⟩ := h
  unfold upsertNflIdent
  split
  · exact ⟨gi, hgi, hp⟩
  · exact ⟨gi, List.mem_append_left _ hgi, hp⟩

/-- After an identifier upsert the row's identifier is present. -/
theorem hasNflIdent_upsert_self (idents : List GameIdentRow)
    (r : SchedRow) : HasNflIdent (upsertNflIdent idents r) r := by
  unfold upsertNflIdent
  split
  · next hany =>
    rw [List.any_eq_true] at hany
    obtain ⟨gi, hgi, hp⟩ := hany
    rw [decide_eq_true_eq] at hp
    exact ⟨gi, hgi, hp⟩
  · exact ⟨⟨r.game_id, ApiSource.NFL_DATA_PY, r.game_id⟩,
      List.mem_append_right _ (List.mem_singleton_self _), rfl, rfl⟩

/-- After an ingestion pass every batch row has its NFL identifier. -/
theorem hasNflIdent_foldl (batch : List SchedRow) :
    ∀ (idents : List GameIdentRow) (r : SchedRow), r ∈ batch →
      HasNflIdent (batch.foldl upsertNflIdent idents) r := by
  induction batch with
  | nil => intro _ r hr; cases hr
  | cons r₀ rest ih =>
    intro idents r hr
    rcases List.mem_cons.mp hr with rfl | hr'
    · have hmono : ∀ (b : List SchedRow) (ids : List GameIdentRow),
          HasNflIdent ids r → HasNflIdent (b.foldl upsertNflIdent ids) r := by
        intro b
        induction b with
        | nil => exact fun _ h => h
        | cons x xs ihb =>
          exact fun ids h =>
            ihb _ (hasNflIdent_upsert_of_hasNflIdent ids x r h)
      exact hmono rest _ (hasNflIdent_upsert_self idents r)
    · exact ih (upsertNflIdent idents r₀) r hr'

/-- When every batch row's identifier is already present, the
identifier pass is the identity. -/
theorem foldl_upsertNflIdent_stable (batch : List SchedRow) :
    ∀ idents : List GameIdentRow,
      (∀ r ∈ batch, HasNflIdent idents r) →
      batch.foldl upsertNflIdent idents = idents := by
  induction batch with
  | nil => intro _ _; rfl
  | cons r rest ih =>
    intro idents hall
    have hany : idents.any (fun gi =>
        gi.source = ApiSource.NFL_DATA_PY ∧ gi.external_id = r.game_id)
        = true := by
      rw [List.any_eq_true]
      obtain ⟨gi, hgi, hp⟩ := hall r (List.mem_cons_self r rest)
      exact ⟨gi, hgi, decide_eq_true hp⟩
    have hstep : upsertNflIdent idents r = idents := by
      unfold upsertNflIdent
      rw [if_pos hany]
    show rest.foldl upsertNflIdent (upsertNflIdent idents r) = idents
    rw [hstep]
    exact ih idents (fun r' hr' => hall r' (List.mem_cons_of_mem r hr'))

/-- The three components of the state after `update_games`: the game
table is the fold of game upserts, the identity map the fold of
identifier upserts, and the team identifiers are untouched. -/
theorem updateGames_proj (batch : List SchedRow) :
    ∀ st : ReconState,
      (updateGames st batch).games = updateGamesTable st.games batch ∧
      (updateGames st batch).gameIdents
        = batch.foldl upsertNflIdent st.gameIdents ∧
      (updateGames st batch).teamIdents = st.teamIdents := by
  induction batch with
  | nil => exact fun _ => ⟨rfl, rfl, rfl⟩
  | cons r rest ih => exact fun st => ih (upsertSchedRow st r)

/-- Claim C8: schedule ingestion is idempotent.  Ingesting the same
season batch twice yields exactly the same state — in particular the
same Game rows, with no duplicates and identical field values — the
not-a-number sentinel is normalized to null, and for every ingested
game the outcome equals the recomputation from its ingested result. -/
theorem updateGames_idempotent (st : ReconState)
    (batch : List SchedRow) :
    updateGames (updateGames st batch) batch = updateGames st batch ∧
    RawNum.nan.toDb = none ∧
    (∀ g ∈ (updateGames st batch).games,
      (∃ r ∈ batch, r.game_id = g.id) →
      g.outcome = Outcome.fromResult g.result) := by
  obtain ⟨p1, p2, p3⟩ := updateGames_proj batch st
  obtain ⟨q1, q2, q3⟩ := updateGames_proj batch (updateGames st batch)
  refine ⟨ReconState.ext ?_ ?_ ?_, rfl, ?_⟩
  · rw [q1, p1, updateGamesTable_idem]
  · rw [q2, p2]
    apply foldl_upsertNflIdent_stable
    exact fun r hr => hasNflIdent_foldl batch st.gameIdents r hr
  · rw [q3]
  · intro g hg hex
    rw [p1] at hg
    obtain ⟨r, hr, hrid⟩ := hex
    have hmem : r ∈ batch.filter (fun r => r.game_id = g.id) :=
      List.mem_filter.mpr ⟨hr, decide_eq_true hrid⟩
    rcases List.eq_nil_or_concat
        (batch.filter (fun r => r.game_id = g.id)) with hnil | hcat
    · rw [hnil] at hmem
      cases hmem
    · obtain ⟨rs, rl, hcat⟩ := hcat
      rw [List.concat_eq_append] at hcat
      have hm := mergeGame_last_of_mem batch st.games g hg rs rl hcat
      have hres : g.result = rl.result.toDb := by
        rw [← hm]
        rfl
      have hout : g.outcome = Outcome.fromResult rl.result.toDb := by
        rw [← hm]
        rfl
      rw [hres]
      exact hout

/-- Updating the first matching bet's choice leaves the key multiset of
the bet table unchanged. -/
theorem updateFirstBet_map_betKey (u : Nat) (g : String) (c : Nat)
    (ch : Int) : ∀ bets : List BetRow,
    (updateFirstBet u g c ch bets).map betKey = bets.map betKey
  | [] => rfl
  | b :: bs => by
    unfold updateFirstBet
    split
    · rfl
    · show betKey b :: (updateFirstBet u g c ch bs).map betKey
        = betKey b :: bs.map betKey
      rw [updateFirstBet_map_betKey u g c ch bs]

/-- The voter upsert preserves the bet unique constraint. -/
theorem betKeysNodup_syncVoter (g : String) (c : Nat) (st : BetsState)
    (v : VoterObs) (h : BetKeysNodup st.bets) :
    BetKeysNodup (syncVoter g c st v).bets := by
  unfold BetKeysNodup at *
  dsimp only [syncVoter]
  split
  · rw [updateFirstBet_map_betKey]
    exact h
  · next hany =>
    have hnotin : (v.id, g, c) ∉ st.bets.map betKey := by
      intro hmem
      obtain ⟨b, hb, hkey⟩ := List.mem_map.mp hmem
      apply hany
      rw [List.any_eq_true]
      refine ⟨b, hb, decide_eq_true ?_⟩
      simp only [betKey, Prod.mk.injEq] at hkey
      exact ⟨hkey.1, hkey.2.1, hkey.2.2⟩
    rw [List.map_append]
    simp [List.nodup_append, h, hnotin, betKey]

/-- A key absent from the table filters to the empty list. -/
theorem filter_key_eq_nil_of_any_false (bets : List BetRow) (u : Nat)
    (g : String) (c : Nat)
    (h : bets.any (fun b =>
      b.user_id = u ∧ b.game_id = g ∧ b.channel_id = c) = false) :
    bets.filter (fun b =>
      b.user_id = u ∧ b.game_id = g ∧ b.channel_id = c) = [] := by
  rw [List.filter_eq_nil_iff]
  rw [List.any_eq_false] at h
  exact h

/-- Updating the first bet of an existing key, under the unique
constraint, makes that key's rows exactly the updated row. -/
theorem updateFirstBet_filter_self (u : Nat) (g : String) (c : Nat)
    (ch : Int) : ∀ bets : List BetRow, BetKeysNodup bets →
    bets.any (fun b =>
      b.user_id = u ∧ b.game_id = g ∧ b.channel_id = c) = true →
    (updateFirstBet u g c ch bets).filter (fun b =>
      b.user_id = u ∧ b.game_id = g ∧ b.channel_id = c)
      = [⟨u, g, c, ch⟩] := by
  intro bets
  induction bets with
  | nil => intro _ h2; cases h2
  | cons b bs ih =>
    intro h1 h2
    unfold BetKeysNodup at h1
    rw [List.map_cons, List.nodup_cons] at h1
    obtain ⟨hknotin, hknd⟩ := h1
    unfold updateFirstBet
    by_cases hb : b.user_id = u ∧ b.game_id = g ∧ b.channel_id = c
    · rw [if_pos hb]
      have hhead : ({ b with choice := ch } : BetRow) = ⟨u, g, c, ch⟩ := by
        obtain ⟨e1, e2, e3⟩ := hb
        cases b
        simp_all
      rw [hhead]
      have hbsany : bs.any (fun x =>
          x.user_id = u ∧ x.game_id = g ∧ x.channel_id = c) = false := by
        rw [List.any_eq_false]
        intro x hx hpx
        rw [decide_eq_true_eq] at hpx
        apply hknotin
        rw [List.mem_map]
        refine ⟨x, hx, ?_⟩
        simp [betKey, hpx.1, hpx.2.1, hpx.2.2, hb.1, hb.2.1, hb.2.2]
      have hbs := filter_key_eq_nil_of_any_false bs u g c hbsany
      rw [List.filter_cons_of_pos (by simp), hbs]
    · rw [if_neg hb]
      have hany' : bs.any (fun x =>
          x.user_id = u ∧ x.game_id = g ∧ x.channel_id = c) = true := by
        rw [List.any_cons, Bool.or_eq_true] at h2
        rcases h2 with hl | hr
        · exact absurd (of_decide_eq_true hl) hb
        · exact hr
      rw [List.filter_cons_of_neg]
      · exact ih hknd hany'
      · simpa using hb

/-- Updating the first bet of one user's key leaves every other user's
rows of the same poll unchanged. -/
theorem updateFirstBet_filter_ne (u u' : Nat) (g : String) (c : Nat)
    (ch : Int) (hne : u' ≠ u) : ∀ bets : List BetRow,
    (updateFirstBet u g c ch bets).filter (fun b =>
      b.user_id = u' ∧ b.game_id = g ∧ b.channel_id = c)
      = bets.filter (fun b =>
        b.user_id = u' ∧ b.game_id = g ∧ b.channel_id = c) := by
  intro bets
  induction bets with
  | nil => rfl
  | cons b bs ih =>
    unfold updateFirstBet
    by_cases hb : b.user_id = u ∧ b.game_id = g ∧ b.channel_id = c
    · rw [if_pos hb]
      have hnot : ¬(b.user_id = u' ∧ b.game_id = g ∧ b.channel_id = c) :=
        fun hx => hne (hx.1.symm.trans hb.1)
      rw [List.filter_cons_of_neg (by simpa using hnot),
        List.filter_cons_of_neg (by simpa using hnot)]
    · rw [if_neg hb]
      by_cases hb' : b.user_id = u' ∧ b.game_id = g ∧ b.channel_id = c
      · rw [List.filter_cons_of_pos (by simpa using hb'),
          List.filter_cons_of_pos (by simpa using hb'), ih]
      · rw [List.filter_cons_of_neg (by simpa using hb'),
          List.filter_cons_of_neg (by simpa using hb'), ih]

/-- After a voter's upsert, the voter's key holds exactly one bet with
the observed choice `answer.id - 1`. -/
theorem syncVoter_filter_self (g : String) (c : Nat) (st : BetsState)
    (v : VoterObs) (h : BetKeysNodup st.bets) :
    (syncVoter g c st v).bets.filter (fun b =>
      b.user_id = v.id ∧ b.game_id = g ∧ b.channel_id = c)
      = [⟨v.id, g, c, v.answer - 1⟩] := by
  dsimp only [syncVoter]
  split
  · next hany =>
    exact updateFirstBet_filter_self v.id g c (v.answer - 1) st.bets h hany
  · next hany =>
    rw [List.filter_append]
    have hany' : st.bets.any (fun b =>
        b.user_id = v.id ∧ b.game_id = g ∧ b.channel_id = c) = false := by
      simpa using hany
    rw [filter_key_eq_nil_of_any_false st.bets v.id g c hany']
    simp

/-- A voter's upsert leaves every other user's rows of the poll
unchanged. -/
theorem syncVoter_filter_ne (g : String) (c : Nat) (st : BetsState)
    (v : VoterObs) (u' : Nat) (hne : u' ≠ v.id) :
    (syncVoter g c st v).bets.filter (fun b =>
      b.user_id = u' ∧ b.game_id = g ∧ b.channel_id = c)
      = st.bets.filter (fun b =>
        b.user_id = u' ∧ b.game_id = g ∧ b.channel_id = c) := by
  dsimp only [syncVoter]
  split
  · exact updateFirstBet_filter_ne v.id u' g c (v.answer - 1) hne st.bets
  · rw [List.filter_append]
    have hnot : ¬((v.id : Nat) = u' ∧ g = g ∧ c = c) :=
      fun hx => hne hx.1.symm
    rw [show ([⟨v.id, g, c, v.answer - 1⟩] : List BetRow).filter (fun b =>
        b.user_id = u' ∧ b.game_id = g ∧ b.channel_id = c) = [] from by
      simp only [List.filter_cons, List.filter_nil]
      rw [if_neg (by simpa using hnot)]]
    rw [List.append_nil]

/-- A voter's upsert records the voter in the user table. -/
theorem syncVoter_users_self (g : String) (c : Nat) (st : BetsState)
    (v : VoterObs) :
    ∃ u ∈ (syncVoter g c st v).users, u.id = v.id := by
  dsimp only [syncVoter]
  split
  · next hany =>
    rw [List.any_eq_true] at hany
    obtain ⟨u, hu, hid⟩ := hany
    exact ⟨u, hu, of_decide_eq_true hid⟩
  · exact ⟨⟨v.id, v.name⟩,
      List.mem_append_right _ (List.mem_singleton_self _), rfl⟩

/-- A voter's upsert never removes users. -/
theorem syncVoter_users_mono (g : String) (c : Nat) (st : BetsState)
    (v : VoterObs) (i : Nat) (h : ∃ u ∈ st.users, u.id = i) :
    ∃ u ∈ (syncVoter g c st v).users, u.id = i := by
  obtain ⟨u, hu, hid⟩ := h
  dsimp only [syncVoter]
  split
  · exact ⟨u, hu, hid⟩
  · exact ⟨u, List.mem_append_left _ hu, hid⟩

/-- Folding over voters none of whom has a given id leaves that id's
rows of the poll unchanged. -/
theorem foldl_syncVoter_filter_preserve (g : String) (c : Nat)
    (u' : Nat) : ∀ (obs : List VoterObs) (st : BetsState),
    (∀ x ∈ obs, x.id ≠ u') →
    ((obs.foldl (syncVoter g c) st).bets.filter (fun b =>
      b.user_id = u' ∧ b.game_id = g ∧ b.channel_id = c))
      = st.bets.filter (fun b =>
        b.user_id = u' ∧ b.game_id = g ∧ b.channel_id = c) := by
  intro obs
  induction obs with
  | nil => exact fun _ _ => rfl
  | cons w rest ih =>
    intro st hall
    show ((rest.foldl (syncVoter g c) (syncVoter g c st w)).bets.filter _)
      = _
    rw [ih (syncVoter g c st w)
      (fun x hx => hall x (List.mem_cons_of_mem w hx)),
      syncVoter_filter_ne g c st w u'
        (fun hc => hall w (List.mem_cons_self w rest) hc.symm)]

/-- The voter fold preserves user-table membership. -/
theorem foldl_syncVoter_users_mono (g : String) (c : Nat) :
    ∀ (obs : List VoterObs) (st : BetsState) (i : Nat),
    (∃ u ∈ st.users, u.id = i) →
    ∃ u ∈ (obs.foldl (syncVoter g c) st).users, u.id = i := by
  intro obs
  induction obs with
  | nil => exact fun _ _ h => h
  | cons w rest ih =>
    exact fun st i h => ih _ i (syncVoter_users_mono g c st w i h)

/-- The voter fold preserves the bet unique constraint. -/
theorem foldl_syncVoter_nodup (g : String) (c : Nat) :
    ∀ (obs : List VoterObs) (st : BetsState), BetKeysNodup st.bets →
    BetKeysNodup ((obs.foldl (syncVoter g c) st).bets) := by
  intro obs
  induction obs with
  | nil => exact fun _ h => h
  | cons w rest ih =>
    exact fun st h => ih _ (betKeysNodup_syncVoter g c st w h)

/-- After the voter fold, each observed voter's key holds exactly one
bet carrying that voter's observed choice. -/
theorem foldl_syncVoter_filter_self (g : String) (c : Nat) :
    ∀ (obs : List VoterObs) (st : BetsState), BetKeysNodup st.bets →
    (obs.map (fun v => v.id)).Nodup →
    ∀ v ∈ obs, ((obs.foldl (syncVoter g c) st).bets.filter (fun b =>
      b.user_id = v.id ∧ b.game_id = g ∧ b.channel_id = c))
      = [⟨v.id, g, c, v.answer - 1⟩] := by
  intro obs
  induction obs with
  | nil => intro _ _ _ v hv; cases hv
  | cons w rest ih =>
    intro st hnd hobs v hv
    rw [List.map_cons, List.nodup_cons] at hobs
    obtain ⟨hwnotin, hrestnd⟩ := hobs
    show ((rest.foldl (syncVoter g c) (syncVoter g c st w)).bets.filter _)
      = _
    rcases List.mem_cons.mp hv with rfl | hv'
    · rw [foldl_syncVoter_filter_preserve g c v.id rest
        (syncVoter g c st v)
        (fun x hx hxid =>
          hwnotin (hxid ▸ List.mem_map_of_mem (fun v => v.id) hx))]
      exact syncVoter_filter_self g c st v hnd
    · exact ih (syncVoter g c st w)
        (betKeysNodup_syncVoter g c st w hnd) hrestnd v hv'

/-- After the voter fold, every observed voter exists in the user
table. -/
theorem foldl_syncVoter_users_self (g : String) (c : Nat) :
    ∀ (obs : List VoterObs) (st : BetsState), ∀ v ∈ obs,
    ∃ u ∈ (obs.foldl (syncVoter g c) st).users, u.id = v.id := by
  intro obs
  induction obs with
  | nil => intro _ v hv; cases hv
  | cons w rest ih =>
    intro st v hv
    show ∃ u ∈ (rest.foldl (syncVoter g c) (syncVoter g c st w)).users, _
    rcases List.mem_cons.mp hv with rfl | hv'
    · exact foldl_syncVoter_users_mono g c rest _ v.id
        (syncVoter_users_self g c st v)
    · exact ih (syncVoter g c st w) v hv'

/-- Deleting absent voters leaves a present voter's rows unchanged. -/
theorem deleteAbsent_filter_key (g : String) (c : Nat)
    (ids : List Nat) (u : Nat) (hu : u ∈ ids) :
    ∀ bets : List BetRow,
    (deleteAbsent g c ids bets).filter (fun b =>
      b.user_id = u ∧ b.game_id = g ∧ b.channel_id = c)
      = bets.filter (fun b =>
        b.user_id = u ∧ b.game_id = g ∧ b.channel_id = c) := by
  intro bets
  induction bets with
  | nil => rfl
  | cons b bs ih =>
    unfold deleteAbsent at *
    by_cases hb : b.user_id = u ∧ b.game_id = g ∧ b.channel_id = c
    · have hkeep : ¬(b.game_id = g ∧ b.channel_id = c ∧
          b.user_id ∉ ids) := by
        rintro ⟨_, _, habs⟩
        exact habs (hb.1 ▸ hu)
      rw [List.filter_cons_of_pos (by exact decide_eq_true hkeep),
        List.filter_cons_of_pos (by exact decide_eq_true hb),
        List.filter_cons_of_pos (by exact decide_eq_true hb), ih]
    · by_cases hdel : (b.game_id = g ∧ b.channel_id = c ∧
          b.user_id ∉ ids)
      · rw [List.filter_cons_of_neg
            (by exact fun hd => of_decide_eq_true hd hdel),
          List.filter_cons_of_neg
            (by exact fun hd => hb (of_decide_eq_true hd)),
          ih]
      · rw [List.filter_cons_of_pos (by exact decide_eq_true hdel),
          List.filter_cons_of_neg
            (by exact fun hd => hb (of_decide_eq_true hd)),
          List.filter_cons_of_neg
            (by exact fun hd => hb (of_decide_eq_true hd)),
          ih]

/-- Claim C1: after `sync_poll_bets` for an open poll, the persisted
bets of that (game, channel) are in exact bijection with the observed
voter set: each observed voter has exactly one bet whose choice is the
observed `answer.id - 1`, every surviving bet of the poll belongs to an
observed voter, and every observed voter exists in the user table.
Hypotheses: the database unique constraint on bets holds, and each
voter appears under one answer (a single-choice poll). -/
theorem syncPollBets_bijection (st : BetsState) (g : String) (c : Nat)
    (obs : List VoterObs) (hkeys : BetKeysNodup st.bets)
    (hobs : (obs.map (fun v => v.id)).Nodup) :
    (∀ v ∈ obs,
      ((syncPollBets st g c obs).bets.filter (fun b =>
        b.user_id = v.id ∧ b.game_id = g ∧ b.channel_id = c))
        = [⟨v.id, g, c, v.answer - 1⟩]) ∧
    (∀ b ∈ (syncPollBets st g c obs).bets,
      b.game_id = g → b.channel_id = c →
      b.user_id ∈ obs.map (fun v => v.id)) ∧
    (∀ v ∈ obs, ∃ u ∈ (syncPollBets st g c obs).users, u.id = v.id) := by
  refine ⟨?_, ?_, ?_⟩
  · intro v hv
    show ((deleteAbsent g c (obs.map (fun v => v.id))
      ((obs.foldl (syncVoter g c) st).bets)).filter _) = _
    rw [deleteAbsent_filter_key g c _ v.id
      (List.mem_map_of_mem (fun v => v.id) hv)]
    exact foldl_syncVoter_filter_self g c obs st hkeys hobs v hv
  · intro b hb hbg hbc
    have hb' : b ∈ deleteAbsent g c (obs.map (fun v => v.id))
        ((obs.foldl (syncVoter g c) st).bets) := hb
    unfold deleteAbsent at hb'
    have hkeep := of_decide_eq_true (List.mem_filter.mp hb').2
    by_contra habs
    exact hkeep ⟨hbg, hbc, habs⟩
  · intro v hv
    show ∃ u ∈ (obs.foldl (syncVoter g c) st).users, u.id = v.id
    exact foldl_syncVoter_users_self g c obs st v hv

/-- Witness for C1 at a concrete state: user 1's stale bet is updated
to choice 1, absent user 2's bet on the poll is deleted, user 2's bet
on channel 6 survives, and new user 3 gets a user row and a bet. -/
theorem syncPollBets_bijection_witness :
    (∀ v ∈ obsSample,
      ((syncPollBets betsSample "g1" 5 obsSample).bets.filter (fun b =>
        b.user_id = v.id ∧ b.game_id = "g1" ∧ b.channel_id = 5))
        = [⟨v.id, "g1", 5, v.answer - 1⟩]) ∧
    (∀ b ∈ (syncPollBets betsSample "g1" 5 obsSample).bets,
      b.game_id = "g1" → b.channel_id = 5 →
      b.user_id ∈ obsSample.map (fun v => v.id)) ∧
    (∀ v ∈ obsSample,
      ∃ u ∈ (syncPollBets betsSample "g1" 5 obsSample).users,
        u.id = v.id) :=
  syncPollBets_bijection betsSample "g1" 5 obsSample
    (by unfold BetKeysNodup; decide) (by decide)

/-- Witness for C8: ingesting one concrete row twice from the empty
state equals ingesting it once, and the inserted game's outcome is the
recomputation from its result. -/
theorem updateGames_idempotent_witness :
    updateGames (updateGames ⟨[], [], []⟩ [schedSample]) [schedSample]
      = updateGames ⟨[], [], []⟩ [schedSample] ∧
    (newGame schedSample).outcome
      = Outcome.fromResult (newGame schedSample).result :=
  ⟨(updateGames_idempotent ⟨[], [], []⟩ [schedSample]).1,
   (updateGames_idempotent ⟨[], [], []⟩ [schedSample]).2.2
     (newGame schedSample) (by decide)
     ⟨schedSample, by decide, by decide⟩⟩
/-- Counterexample to claim C2: a poll past kickoff whose external
finalization call fails is NOT closed locally — `poll.closed = True`
sits inside the `try` after the external calls, so the caught
exception skips it and the poll stays open. -/
theorem closePolls_external_failure_keeps_open :
    (closePolls 10 (fun _ => 0) (fun _ => CloseExt.failBeforeClose)
      [pollStuck]).map (fun p => p.closed) = [false] := by
  decide

/-- Claim C2 (amended): for a poll past kickoff, `close_polls` sets the
local closed flag iff the external calls up to and including the poll
finalization succeed; a failure there is logged and the poll stays
open for retry, while a failure of the later unpin (after the
assignment) does not prevent closing.  All other fields are
untouched. -/
theorem closePolls_closed_spec (now : Int) (kickoffOf : String → Int)
    (ext : Nat → CloseExt) (polls : List PollRow) :
    ∀ p ∈ polls,
      closePollStep now kickoffOf ext p
        ∈ closePolls now kickoffOf ext polls ∧
      ((closePollStep now kickoffOf ext p).closed = true ↔
        (p.closed = true ∨
          (kickoffOf p.game_id ≤ now ∧
            ext p.id ≠ CloseExt.failBeforeClose))) ∧
      (closePollStep now kickoffOf ext p).message_id = p.message_id ∧
      (closePollStep now kickoffOf ext p).result_posted
        = p.result_posted := by
  intro p hp
  refine ⟨List.mem_map_of_mem _ hp, ?_, ?_, ?_⟩
  · unfold closePollStep
    by_cases hg : (p.closed = false ∧ kickoffOf p.game_id ≤ now)
    · rw [if_pos hg]
      cases hext : ext p.id
      · simp [hg.1, hg.2, hext]
      · simp [hg.1, hg.2, hext]
      · simp [hg.1, hg.2, hext]
    · rw [if_neg hg]
      cases hc : p.closed
      · have hnot : ¬ kickoffOf p.game_id ≤ now :=
          fun hle => hg ⟨hc, hle⟩
        simp [hnot]
      · simp
  · unfold closePollStep
    by_cases hg : (p.closed = false ∧ kickoffOf p.game_id ≤ now)
    · rw [if_pos hg]
      cases hext : ext p.id <;> rfl
    · rw [if_neg hg]
  · unfold closePollStep
    by_cases hg : (p.closed = false ∧ kickoffOf p.game_id ≤ now)
    · rw [if_pos hg]
      cases hext : ext p.id <;> rfl
    · rw [if_neg hg]

/-- Witness for the amended C2 at a concrete poll: with a post-closing
unpin failure the poll still closes. -/
theorem closePolls_closed_spec_witness :
    closePollStep 10 (fun _ => 0) (fun _ => CloseExt.failAfterClose)
        pollStuck
      ∈ closePolls 10 (fun _ => 0) (fun _ => CloseExt.failAfterClose)
        [pollStuck] ∧
    ((closePollStep 10 (fun _ => 0) (fun _ => CloseExt.failAfterClose)
        pollStuck).closed = true ↔
      (pollStuck.closed = true ∨
        ((fun _ => (0 : Int)) pollStuck.game_id ≤ 10 ∧
          (fun _ => CloseExt.failAfterClose) pollStuck.id
            ≠ CloseExt.failBeforeClose))) ∧
    (closePollStep 10 (fun _ => 0) (fun _ => CloseExt.failAfterClose)
        pollStuck).message_id = pollStuck.message_id ∧
    (closePollStep 10 (fun _ => 0) (fun _ => CloseExt.failAfterClose)
        pollStuck).result_posted = pollStuck.result_posted :=
  closePolls_closed_spec 10 (fun _ => 0)
    (fun _ => CloseExt.failAfterClose) [pollStuck] pollStuck
    (List.mem_singleton_self pollStuck)
/-- One lifecycle firing never unsets the message handle, the closed
flag or the result_posted flag, and never deletes the poll row. -/
theorem lifeStep_flags_mono (kickoff : Int) (result : Option Int)
    (p : PollFlags) (s' : Option PollFlags)
    (h : LifeStep kickoff result (some p) s') :
    ∃ p', s' = some p' ∧
      (∀ m, p.message_id = some m → p'.message_id = some m) ∧
      (p.closed = true → p'.closed = true) ∧
      (p.result_posted = true → p'.result_posted = true) := by
  cases h with
  | openPoll p m hm =>
    refine ⟨{ p with message_id := some m }, rfl, ?_, id, id⟩
    intro m' hm'
    rw [hm] at hm'
    cases hm'
  | openPollFail p hm => exact ⟨p, rfl, fun _ h => h, id, id⟩
  | closeOk p now hc hk =>
    exact ⟨{ p with closed := true }, rfl, fun _ h => h, fun _ => rfl, id⟩
  | closeFail p now hc hk => exact ⟨p, rfl, fun _ h => h, id, id⟩
  | postResults p hr hres =>
    exact ⟨{ p with result_posted := true }, rfl, fun _ h => h, id,
      fun _ => rfl⟩
  | postResultsFail p hr hres => exact ⟨p, rfl, fun _ h => h, id, id⟩

/-- Claim C3 (amended): along every interleaving of the lifecycle
tasks, each flag is monotone — a set message handle, closed flag or
result_posted flag is never unset and the poll row is never deleted —
but the walk may SKIP the CLOSED stage: `post_results` does not
require `closed`, so `result_posted = true ∧ closed = false` is
reachable (see the counterexample). -/
theorem lifecycle_flags_monotone (kickoff : Int) (result : Option Int)
    (p : PollFlags) (s' : Option PollFlags)
    (h : Relation.ReflTransGen (LifeStep kickoff result) (some p) s') :
    ∃ p', s' = some p' ∧
      (∀ m, p.message_id = some m → p'.message_id = some m) ∧
      (p.closed = true → p'.closed = true) ∧
      (p.result_posted = true → p'.result_posted = true) := by
  induction h with
  | refl => exact ⟨p, rfl, fun _ h => h, id, id⟩
  | tail hab hbc ih =>
    obtain ⟨q, rfl, hm, hc, hr⟩ := ih
    obtain ⟨q', hq', hm', hc', hr'⟩ :=
      lifeStep_flags_mono kickoff result q _ hbc
    exact ⟨q', hq', fun m h0 => hm' m (hm m h0),
      fun h0 => hc' (hc h0), fun h0 => hr' (hr h0)⟩

/-- Counterexample to claim C3: starting from PENDING, the trace
create → post_poll → post_results (the game's result having been
ingested while the poll was never closed) reaches
`result_posted = true ∧ closed = false` — `post_results` selects on
`result_posted == False ∧ result != None` only (main.py lines
267-274), never checking `closed`. -/
theorem lifecycle_reaches_posted_unclosed :
    Relation.ReflTransGen (LifeStep 5 (some 3)) none
      (some ⟨some 99, false, true⟩) ∧
    (⟨some 99, false, true⟩ : PollFlags).result_posted = true ∧
    (⟨some 99, false, true⟩ : PollFlags).closed = false := by
  refine ⟨?_, rfl, rfl⟩
  have h1 : LifeStep 5 (some 3) none (some ⟨none, false, false⟩) :=
    LifeStep.create 0 (by decide) (by decide)
  have h2 : LifeStep 5 (some 3) (some ⟨none, false, false⟩)
      (some ⟨some 99, false, false⟩) :=
    LifeStep.openPoll ⟨none, false, false⟩ 99 rfl
  have h3 : LifeStep 5 (some 3) (some ⟨some 99, false, false⟩)
      (some ⟨some 99, false, true⟩) :=
    LifeStep.postResults ⟨some 99, false, false⟩ rfl (by decide)
  exact Relation.ReflTransGen.head h1
    (Relation.ReflTransGen.head h2 (Relation.ReflTransGen.single h3))

/-- Witness for the amended C3: a concrete two-step walk (close, then
post results) keeps the closed flag set. -/
theorem lifecycle_flags_monotone_witness :
    ∃ p', (some ⟨some 99, true, true⟩ : Option PollFlags) = some p' ∧
      (∀ m, (⟨some 99, true, false⟩ : PollFlags).message_id = some m →
        p'.message_id = some m) ∧
      ((⟨some 99, true, false⟩ : PollFlags).closed = true →
        p'.closed = true) ∧
      ((⟨some 99, true, false⟩ : PollFlags).result_posted = true →
        p'.result_posted = true) :=
  lifecycle_flags_monotone 5 (some 3) ⟨some 99, true, false⟩
    (some ⟨some 99, true, true⟩)
    (Relation.ReflTransGen.single
      (LifeStep.postResults ⟨some 99, true, false⟩ rfl (by decide)))
/-- Descending insertion permutes to a cons. -/
theorem insertDesc_perm (x : Int) :
    ∀ l : List Int, (insertDesc x l).Perm (x :: l)
  | [] => List.Perm.refl _
  | y :: ys => by
    unfold insertDesc
    split
    · exact List.Perm.refl _
    · exact ((insertDesc_perm x ys).cons y).trans (List.Perm.swap x y ys)

/-- The descending sort is a permutation. -/
theorem sortDesc_perm : ∀ l : List Int, (sortDesc l).Perm l
  | [] => List.Perm.refl _
  | a :: l => by
    show (insertDesc a (sortDesc l)).Perm (a :: l)
    exact (insertDesc_perm a (sortDesc l)).trans ((sortDesc_perm l).cons a)

/-- Descending insertion preserves descending sortedness. -/
theorem insertDesc_sorted (x : Int) :
    ∀ l : List Int, l.Pairwise (· ≥ ·) →
      (insertDesc x l).Pairwise (· ≥ ·)
  | [], _ => by
    unfold insertDesc
    exact List.pairwise_singleton _ x
  | y :: ys, h => by
    obtain ⟨hy, hys⟩ := List.pairwise_cons.mp h
    unfold insertDesc
    split
    · next hle =>
      refine List.pairwise_cons.mpr ⟨?_, h⟩
      intro z hz
      rcases List.mem_cons.mp hz with rfl | hz'
      · exact hle
      · exact le_trans (hy z hz') hle
    · next hgt =>
      refine List.pairwise_cons.mpr ⟨?_, insertDesc_sorted x ys hys⟩
      intro z hz
      have hz' := (insertDesc_perm x ys).mem_iff.mp hz
      rcases List.mem_cons.mp hz' with rfl | hz''
      · exact le_of_not_le hgt
      · exact hy z hz''

/-- The descending sort is descending. -/
theorem sortDesc_sorted : ∀ l : List Int, (sortDesc l).Pairwise (· ≥ ·)
  | [] => List.Pairwise.nil
  | a :: l => insertDesc_sorted a (sortDesc l) (sortDesc_sorted l)

/-- Length of a filter by a disjunction of disjoint predicates. -/
theorem length_filter_or_disjoint {α : Type} (p q : α → Bool) :
    ∀ l : List α, (∀ a ∈ l, ¬(p a = true ∧ q a = true)) →
    (l.filter (fun a => p a || q a)).length
      = (l.filter p).length + (l.filter q).length := by
  intro l
  induction l with
  | nil => intro _; rfl
  | cons a t ih =>
    intro hd
    have ht := ih (fun x hx => hd x (List.mem_cons_of_mem a hx))
    cases hp : p a
    · cases hq : q a
      · simp only [List.filter_cons, hp, hq, Bool.or_self, if_neg,
          Bool.false_eq_true, not_false_eq_true]
        exact ht
      · simp only [List.filter_cons, hp, hq, Bool.or_true, if_pos,
          List.length_cons, Bool.false_eq_true, if_neg,
          not_false_eq_true]
        omega
    · cases hq : q a
      · simp only [List.filter_cons, hp, hq, Bool.true_or, if_pos,
          List.length_cons, Bool.false_eq_true, if_neg,
          not_false_eq_true]
        omega
      · exact absurd ⟨hp, hq⟩ (hd a (List.mem_cons_self a t))

/-- Unfolding equation for the place-assignment loop. -/
theorem assignPlaces_cons (p : Nat) (s : Int) (us : List Nat)
    (rest : List (Int × List Nat)) :
    assignPlaces p ((s, us) :: rest)
      = (p, s, us) :: assignPlaces (p + us.length) rest := rfl

/-- The place-assignment loop on canonical groups: when the group keys
are strictly descending, cover every considered user's score, and the
running place equals one plus the number of users already placed, each
group's place is one plus the number of users with a strictly greater
score. -/
theorem assignPlaces_spec (U : List Nat) (f : Nat → Int) :
    ∀ (ss : List Int) (p : Nat),
      ss.Pairwise (· > ·) →
      (∀ u ∈ U, f u ∉ ss → ∀ s ∈ ss, s < f u) →
      p = 1 + (U.filter (fun u => f u ∉ ss)).length →
      assignPlaces p (ss.map (fun s => (s, U.filter (fun u => f u = s))))
        = ss.map (fun s =>
            (1 + (U.filter (fun u => s < f u)).length, s,
             U.filter (fun u => f u = s))) := by
  intro ss
  induction ss with
  | nil => intro p _ _ _; rfl
  | cons s₀ rest ih =>
    intro p hsort hcover hp
    obtain ⟨hhead, htail⟩ := List.pairwise_cons.mp hsort
    have hs₀notin : s₀ ∉ rest := fun hmem => lt_irrefl s₀ (hhead s₀ hmem)
    have hp₀ : p = 1 + (U.filter (fun u => s₀ < f u)).length := by
      rw [hp]
      have hfe : U.filter (fun u => f u ∉ s₀ :: rest)
          = U.filter (fun u => s₀ < f u) := by
        apply List.filter_congr
        intro u hu
        apply decide_eq_decide.mpr
        constructor
        · intro hnotin
          exact hcover u hu hnotin s₀ (List.mem_cons_self s₀ rest)
        · intro hlt hmem
          rcases List.mem_cons.mp hmem with hfs | hm
          · exact lt_irrefl s₀ (hfs ▸ hlt)
          · exact lt_asymm hlt (hhead (f u) hm)
      rw [hfe]
    have hcover' : ∀ u ∈ U, f u ∉ rest → ∀ s ∈ rest, s < f u := by
      intro u hu hnot s hs
      by_cases hfs : f u = s₀
      · exact hfs ▸ hhead s hs
      · exact hcover u hu
          (fun hmem => (List.mem_cons.mp hmem).elim hfs hnot)
          s (List.mem_cons_of_mem s₀ hs)
    have hsplit : (U.filter (fun u => f u ∉ rest)).length
        = (U.filter (fun u => f u ∉ s₀ :: rest)).length
          + (U.filter (fun u => f u = s₀)).length := by
      have hfe : U.filter (fun u => f u ∉ rest)
          = U.filter (fun u =>
              decide (f u ∉ s₀ :: rest) || decide (f u = s₀)) := by
        apply List.filter_congr
        intro u hu
        rw [← Bool.decide_or]
        apply decide_eq_decide.mpr
        constructor
        · intro hnot
          by_cases hfs : f u = s₀
          · exact Or.inr hfs
          · exact Or.inl
              (fun hmem => (List.mem_cons.mp hmem).elim hfs hnot)
        · rintro (hnot | hfs)
          · exact fun hmem => hnot (List.mem_cons_of_mem s₀ hmem)
          · exact hfs ▸ hs₀notin
      rw [hfe]
      exact length_filter_or_disjoint _ _ U
        (fun u hu ⟨h1, h2⟩ =>
          of_decide_eq_true h1
            (of_decide_eq_true h2 ▸ List.mem_cons_self s₀ rest))
    have hp' : p + (U.filter (fun u => f u = s₀)).length
        = 1 + (U.filter (fun u => f u ∉ rest)).length := by
      rw [hp, hsplit]
      omega
    rw [List.map_cons, List.map_cons, assignPlaces_cons,
      ih _ htail hcover' hp', hp₀]

/-- Claim C5: the leaderboard groups the channel's wagers by user, sums
each user's earned points, and ranks descending with shared ranks for
ties, the next rank advancing by the number of tied members: every
considered user appears in the entry holding exactly the users tied at
their score, and that entry's place is one plus the number of users
with a strictly greater total.  The hypothesis states what the code
assumes to run: every bet of the channel has computable earned points
(its game and scaling rows exist). -/
theorem leaderboard_ranking (scalings : List ScalingRow)
    (games : List GameRow) (bets : List BetRow) (c : Nat)
    (hsc : ∀ b ∈ bets, b.channel_id = c →
      earnedPoints scalings games b ≠ none) :
    ∀ u ∈ usersWithBets bets c,
      ((1 + ((usersWithBets bets c).filter (fun v =>
          scoreOf scalings games bets c u
            < scoreOf scalings games bets c v)).length,
        scoreOf scalings games bets c u,
        (usersWithBets bets c).filter (fun v =>
          scoreOf scalings games bets c v
            = scoreOf scalings games bets c u))
        ∈ postLeaderboard scalings games bets c) ∧
      u ∈ (usersWithBets bets c).filter (fun v =>
        scoreOf scalings games bets c v
          = scoreOf scalings games bets c u) := by
  intro u hu
  have hperm := sortDesc_perm (((usersWithBets bets c).map
    (scoreOf scalings games bets c)).dedup)
  have hnd := (hperm.nodup_iff).mpr (List.nodup_dedup _)
  have hstrict : (sortDesc (((usersWithBets bets c).map
      (scoreOf scalings games bets c)).dedup)).Pairwise (· > ·) :=
    ((sortDesc_sorted _).and hnd).imp
      (fun hab => lt_of_le_of_ne hab.1 (Ne.symm hab.2))
  have hcov : ∀ v ∈ usersWithBets bets c,
      scoreOf scalings games bets c v
        ∈ sortDesc (((usersWithBets bets c).map
            (scoreOf scalings games bets c)).dedup) := by
    intro v hv
    rw [hperm.mem_iff, List.mem_dedup]
    exact List.mem_map_of_mem _ hv
  have hstart : (1 : Nat) = 1 + ((usersWithBets bets c).filter
      (fun v => scoreOf scalings games bets c v
        ∉ sortDesc (((usersWithBets bets c).map
            (scoreOf scalings games bets c)).dedup))).length := by
    have hnil : (usersWithBets bets c).filter
        (fun v => scoreOf scalings games bets c v
          ∉ sortDesc (((usersWithBets bets c).map
              (scoreOf scalings games bets c)).dedup)) = [] := by
      rw [List.filter_eq_nil_iff]
      intro v hv hd
      exact (of_decide_eq_true hd) (hcov v hv)
    rw [hnil]
    rfl
  have hpl : postLeaderboard scalings games bets c
      = (sortDesc (((usersWithBets bets c).map
          (scoreOf scalings games bets c)).dedup)).map (fun s =>
        (1 + ((usersWithBets bets c).filter
          (fun v => s < scoreOf scalings games bets c v)).length, s,
         (usersWithBets bets c).filter
          (fun v => scoreOf scalings games bets c v = s))) :=
    assignPlaces_spec (usersWithBets bets c)
      (scoreOf scalings games bets c) _ 1 hstrict
      (fun v hv hnot => absurd (hcov v hv) hnot) hstart
  constructor
  · rw [hpl]
    exact List.mem_map.mpr ⟨scoreOf scalings games bets c u,
      hcov u hu, rfl⟩
  · exact List.mem_filter.mpr ⟨hu, decide_eq_true rfl⟩

/-- Witness for C5, realizing the spec's example {A:10, B:10, C:5}:
user 3 (total 5) is placed behind both 10-point users. -/
theorem leaderboard_ranking_witness :
    ((1 + ((usersWithBets c5Bets 7).filter (fun v =>
        scoreOf c5Scalings c5Games c5Bets 7 3
          < scoreOf c5Scalings c5Games c5Bets 7 v)).length,
      scoreOf c5Scalings c5Games c5Bets 7 3,
      (usersWithBets c5Bets 7).filter (fun v =>
        scoreOf c5Scalings c5Games c5Bets 7 v
          = scoreOf c5Scalings c5Games c5Bets 7 3))
      ∈ postLeaderboard c5Scalings c5Games c5Bets 7) ∧
    3 ∈ (usersWithBets c5Bets 7).filter (fun v =>
      scoreOf c5Scalings c5Games c5Bets 7 v
        = scoreOf c5Scalings c5Games c5Bets 7 3) :=
  leaderboard_ranking c5Scalings c5Games c5Bets 7 (by decide) 3
    (by decide)
end Otterball
